import Mathlib

/-!
Shallow embedding of the numeric kernels of the Py4HPC notebooks
(`02_numba_intro.ipynb` and `03_numba_blond.ipynb`) over the real numbers,
together with proofs of the testable properties of those kernels.

Mutable NumPy arrays are modelled as `List ℝ`; a Python function that
mutates an array argument in place is modelled as a function returning the
final contents of the arrays it can reach, with arrays it never writes
passed through unchanged.  A Python runtime error (ZeroDivisionError) is
modelled as `Option.none`.
-/

noncomputable section

namespace NB02

/-- average_unrolled from 02_numba_intro: `total = 0.0`, then
`for elem in arr: total += elem`, then `total /= len(arr)` (which raises
ZeroDivisionError when the array is empty, modelled as `none`), then
`return total`. -/
def average_unrolled (arr : List ℝ) : Option ℝ :=
  let total := arr.foldl (fun t e => t + e) 0.0
  if arr.length = 0 then none else some (total / arr.length)

/-- kick_unrolled from 02_numba_intro:
`for i in range(len(dt)): dE[i] += voltage * math.sin(omega * dt[i] + phi) + acc_kick`.
The pair returned is the final contents of `(dt, dE)`; the loop writes only
`dE`. -/
def kick_unrolled (dt dE : List ℝ) (voltage omega phi acc_kick : ℝ) :
    List ℝ × List ℝ :=
  (dt,
    (List.range dt.length).foldl
      (fun p i =>
        p.set i (p.getD i 0 + (voltage * Real.sin (omega * dt.getD i 0 + phi) + acc_kick)))
      dE)

/-- kick_numpy from 02_numba_intro:
`dE += voltage * np.sin(omega * dt + phi) + acc_kick`, all NumPy operations
elementwise over `dt`, added in place to `dE`. -/
def kick_numpy (dt dE : List ℝ) (voltage omega phi acc_kick : ℝ) :
    List ℝ × List ℝ :=
  (dt,
    List.zipWith (fun e x => e + x) dE
      (dt.map (fun t => voltage * Real.sin (omega * t + phi) + acc_kick)))

/-- standard_normal_pdf from 02_numba_intro:
`return math.exp(-x**2/2.) / math.sqrt(2*math.pi)`. -/
def standard_normal_pdf (x : ℝ) : ℝ :=
  Real.exp (-(x ^ 2) / 2) / Real.sqrt (2 * Real.pi)

/-- numpy_pdf from 02_numba_intro:
`return np.exp(-x**2/2.) / np.sqrt(2*math.pi)`; `np.exp` maps over the input
array and the division by the scalar `np.sqrt(2*math.pi)` maps over the
result. -/
def numpy_pdf (x : List ℝ) : List ℝ :=
  (x.map (fun t => Real.exp (-(t ^ 2) / 2))).map (fun y => y / Real.sqrt (2 * Real.pi))

/-- get_access from 02_numba_intro, as executed by the pure-Python
interpreter: the global variable `secure_pass` is read at call time, so it
is an explicit argument here.
`if secure_pass == input_pass: return 'Access Granted!' else: return 'Access Denied!'`. -/
def get_access (secure_pass input_pass : String) : String :=
  if secure_pass = input_pass then "Access Granted!" else "Access Denied!"

/-- unrolled_discriminant from 02_numba_intro:
`X = np.empty_like(A)`, then
`for i in range(len(A)): X[i] = (-B[i] + math.sqrt(abs(B[i]**2 - 4 * A[i] * C[i]))) / (2*A[i])`,
then `return X`. -/
def unrolled_discriminant (A B C : List ℝ) : List ℝ :=
  (List.range A.length).map (fun i =>
    (-(B.getD i 0) + Real.sqrt |(B.getD i 0) ^ 2 - 4 * A.getD i 0 * C.getD i 0|) /
      (2 * A.getD i 0))

/-- numpy_discriminant from 02_numba_intro:
`return (-B + np.sqrt(np.abs(B**2 - 4 * A * C)))/(2 * A)`, each NumPy
operation elementwise. -/
def numpy_discriminant (A B C : List ℝ) : List ℝ :=
  List.zipWith (fun num den => num / den)
    (List.zipWith (fun nb s => nb + s) (B.map (fun b => -b))
      (((List.zipWith (fun sq ac => sq - ac) (B.map (fun b => b ^ 2))
          (List.zipWith (fun fa c => fa * c) (A.map (fun a => 4 * a)) C)).map
            (fun d => |d|)).map Real.sqrt))
    (A.map (fun a => 2 * a))

/-- discriminant (scalar) from 02_numba_intro:
`return (-b + math.sqrt(abs(b**2 - 4 * a * c))) / (2*a)`. -/
def discriminant (a b c : ℝ) : ℝ :=
  (-b + Real.sqrt |b ^ 2 - 4 * a * c|) / (2 * a)

end NB02

namespace NB03

open Classical

/-- Global `n_iter` of 03_numba_blond: the number of tracking iterations. -/
def n_iter : ℕ := 10

/-- Model of `np.histogram(a, bins, range=(cut_left, cut_right))` counts:
`bins` uniform-width buckets over `[cut_left, cut_right]`, each half-open on
the right except the last, which also contains the right edge. -/
def np_histogram (a : List ℝ) (bins : ℕ) (cut_left cut_right : ℝ) : List ℕ :=
  let w := (cut_right - cut_left) / bins
  (List.range bins).map (fun k =>
    a.countP (fun x => decide
      ((cut_left + k * w ≤ x ∧ x < cut_left + (k + 1) * w) ∨
        (k = bins - 1 ∧ x = cut_right))))

/-- kick_numpy from 03_numba_blond (one voltage entry per RF station):
`for j in range(len(voltage)): dE += voltage[j] * np.sin(omega[j] * dt + phi[j])`,
then `dE += acc_kick`.  Only `dE` is written; `dt` is returned unchanged. -/
def kick_numpy (dt dE : List ℝ) (voltage omega phi : List ℝ) (acc_kick : ℝ) :
    List ℝ × List ℝ :=
  let dE2 := (List.range voltage.length).foldl
    (fun p j =>
      List.zipWith (fun e x => e + x) p
        (dt.map (fun t =>
          voltage.getD j 0 * Real.sin (omega.getD j 0 * t + phi.getD j 0))))
    dE
  (dt, dE2.map (fun e => e + acc_kick))

/-- drift_numpy from 03_numba_blond:
`inv_beta_sq = 1. / beta**2`, `inv_ene_sq = 1. / energy**2`,
`beam_delta = np.sqrt(1. + inv_beta_sq * (dE**2 * inv_ene_sq + 2 * dE/energy)) - 1.`
(elementwise over `dE`), then
`dt += T0 * length_ratio * ((1 + alpha_zero*beam_delta + alpha_one*beam_delta**2 + alpha_two*beam_delta**3) * (1 + dE/energy) / (1 + beam_delta) - 1)`.
Only `dt` is written; `dE` is returned unchanged. -/
def drift_numpy (dt dE : List ℝ) (T0 : ℝ) ( length_ratio : ℝ)
    (beta energy alpha_zero alpha_one alpha_two : ℝ) : List ℝ × List ℝ :=
  let inv_beta_sq := 1.0 / beta ^ 2
  let inv_ene_sq := 1.0 / energy ^ 2
  let beam_delta := dE.map (fun e =>
    Real.sqrt (1.0 + inv_beta_sq * (e ^ 2 * inv_ene_sq + 2 * e / energy)) - 1.0)
  (List.zipWith (fun t x => t + x) dt
    (List.zipWith (fun bd e =>
      T0 * length_ratio *
        ((1 + alpha_zero * bd + alpha_one * bd ^ 2 + alpha_two * bd ^ 3) *
            (1 + e / energy) / (1 + bd) - 1)) beam_delta dE),
   dE)

/-- histo_numpy from 03_numba_blond:
`profile, _ = np.histogram(dt, bins=len(profile), range=(cut_left, cut_right))`.
The histogram result is bound to the local name `profile` only; the caller's
array is never written, so the final contents of the `profile` argument are
its entry contents. -/
def histo_numpy (dt profile : List ℝ) (cut_left cut_right : ℝ) : List ℝ :=
  let _hist := np_histogram dt profile.length cut_left cut_right
  profile

/-- histo_unrolled from 03_numba_blond:
`inv_bin_width = len(profile) / (cut_right - cut_left)`,
`target_bin = np.floor((dt - cut_left) * inv_bin_width)` (elementwise), then
`for i in range(len(target_bin)): if target_bin[i] >= 0 and target_bin[i] < len(profile): profile[int(target_bin[i])] += 1.0`.
Returns the final contents of `profile`. -/
def histo_unrolled (dt profile : List ℝ) (cut_left cut_right : ℝ) : List ℝ :=
  let inv_bin_width := (profile.length : ℝ) / (cut_right - cut_left)
  let target_bin := dt.map (fun x => ⌊(x - cut_left) * inv_bin_width⌋)
  (List.range target_bin.length).foldl
    (fun p i =>
      if 0 ≤ target_bin.getD i 0 ∧ target_bin.getD i 0 < (p.length : ℤ) then
        p.set (target_bin.getD i 0).toNat
          (p.getD (target_bin.getD i 0).toNat 0 + 1.0)
      else p)
    profile

/-- loop_numpy from 03_numba_blond, the main tracking loop:
`for i in range(n_iter): kick_numpy(...); drift_numpy(...); profile *= 0.0; histo_numpy(...)`.
The state threaded through the loop is `(dt, dE, profile)`. -/
def loop_numpy (dt dE profile : List ℝ) (cut_left cut_right : ℝ)
    (voltage omega phi : List ℝ) (acc_kick T0 : ℝ) ( length_ratio : ℝ)
    (beta energy alpha_zero alpha_one alpha_two : ℝ) :
    List ℝ × List ℝ × List ℝ :=
  (List.range n_iter).foldl
    (fun s _ =>
      let kicked := kick_numpy s.1 s.2.1 voltage omega phi acc_kick
      let drifted := drift_numpy kicked.1 kicked.2 T0 length_ratio beta energy
        alpha_zero alpha_one alpha_two
      let zeroed := s.2.2.map (fun x => x * 0.0)
      (drifted.1, drifted.2, histo_numpy drifted.1 zeroed cut_left cut_right))
    (dt, dE, profile)

end NB03

/-- Summing a real list by a left fold starting from an accumulator. -/
theorem py_foldl_add_eq_sum (arr : List ℝ) : ∀ s : ℝ,
    arr.foldl (fun t e => t + e) s = s + arr.sum := by
  induction arr with
  | nil => intro s; simp
  | cons a l ih =>
    intro s
    simp only [List.foldl_cons, List.sum_cons, ih (s + a)]
    ring

/-- An index-shift step for in-place update loops: folding an
`set i (getD i + g (dt.getD i))` body over successor indices leaves the
head of both lists alone. -/
theorem py_foldl_set_succ (g : ℝ → ℝ) (t : ℝ) :
    ∀ (idx : List ℕ) (ts l : List ℝ) (x : ℝ),
      idx.foldl
        (fun p i => p.set (i + 1) (p.getD (i + 1) 0 + g ((t :: ts).getD (i + 1) 0)))
        (x :: l) =
        x :: idx.foldl (fun p i => p.set i (p.getD i 0 + g (ts.getD i 0))) l := by
  intro idx
  induction idx with
  | nil => intro ts l x; rfl
  | cons i idx ih =>
    intro ts l x
    simp only [List.foldl_cons, List.getD_cons_succ, List.set_cons_succ]
    exact ih ts _ x

/-- The in-place update loop
`for i in range(len(dt)): dE[i] = dE[i] + g(dt[i])` computes the
elementwise combination of `dE` and `dt` whenever the two lists have equal
length. -/
theorem py_foldl_set_range (g : ℝ → ℝ) :
    ∀ dt dE : List ℝ, dE.length = dt.length →
      (List.range dt.length).foldl
          (fun p i => p.set i (p.getD i 0 + g (dt.getD i 0))) dE =
        List.zipWith (fun e t => e + g t) dE dt := by
  intro dt
  induction dt with
  | nil =>
    intro dE h
    rw [List.length_eq_zero.mp h]
    rfl
  | cons t ts ih =>
    intro dE h
    cases dE with
    | nil => simp at h
    | cons e es =>
      simp only [List.length_cons, Nat.succ.injEq] at h
      rw [List.length_cons, List.range_succ_eq_map]
      simp only [List.foldl_cons, List.foldl_map, List.getD_cons_zero,
        List.set_cons_zero, List.zipWith_cons_cons]
      rw [py_foldl_set_succ g t (List.range ts.length) ts es (e + g t), ih es h]

/-- Claim C3: `kick_unrolled` updates each element `i` of `dE` to its old
value plus `voltage * sin(omega * dt[i] + phi) + acc_kick`, elementwise over
every index, and performs no other update: the final state is exactly
`(dt, zipWith dE dt)` with that formula. -/
theorem kick_unrolled_correct (dt dE : List ℝ) (voltage omega phi acc_kick : ℝ)
    (h : dE.length = dt.length) :
    NB02.kick_unrolled dt dE voltage omega phi acc_kick =
      (dt, List.zipWith
        (fun e t => e + (voltage * Real.sin (omega * t + phi) + acc_kick)) dE dt) := by
  unfold NB02.kick_unrolled
  rw [py_foldl_set_range (fun t => voltage * Real.sin (omega * t + phi) + acc_kick) dt dE h]

/-- Witness for claim C3 at `dt = [1]`, `dE = [2]` and unit scalars. -/
theorem kick_unrolled_correct_witness :
    [(2 : ℝ)].length = [(1 : ℝ)].length ∧
      NB02.kick_unrolled [(1 : ℝ)] [(2 : ℝ)] 1 1 1 1 =
        ([(1 : ℝ)], List.zipWith
          (fun e t => e + (1 * Real.sin (1 * t + 1) + 1)) [(2 : ℝ)] [(1 : ℝ)]) :=
  ⟨rfl, kick_unrolled_correct [(1 : ℝ)] [(2 : ℝ)] 1 1 1 1 rfl⟩

/-- Claim C2: on equal-length arrays, the manually-looped kick and the
vectorized kick of notebook 02 produce the same final `dE` (over the reals,
i.e. exactly, hence within floating-point tolerance), and both leave `dt`
unchanged. -/
theorem kick_unrolled_eq_kick_numpy (dt dE : List ℝ)
    (voltage omega phi acc_kick : ℝ) (h : dE.length = dt.length) :
    NB02.kick_unrolled dt dE voltage omega phi acc_kick =
        NB02.kick_numpy dt dE voltage omega phi acc_kick ∧
      (NB02.kick_unrolled dt dE voltage omega phi acc_kick).1 = dt ∧
      (NB02.kick_numpy dt dE voltage omega phi acc_kick).1 = dt := by
  refine ⟨?_, rfl, rfl⟩
  unfold NB02.kick_unrolled NB02.kick_numpy
  rw [py_foldl_set_range (fun t => voltage * Real.sin (omega * t + phi) + acc_kick) dt dE h,
    List.zipWith_map_right]

/-- Witness for claim C2 at `dt = [1]`, `dE = [2]` and unit scalars. -/
theorem kick_unrolled_eq_kick_numpy_witness :
    [(2 : ℝ)].length = [(1 : ℝ)].length ∧
      (NB02.kick_unrolled [(1 : ℝ)] [(2 : ℝ)] 1 1 1 1 =
          NB02.kick_numpy [(1 : ℝ)] [(2 : ℝ)] 1 1 1 1 ∧
        (NB02.kick_unrolled [(1 : ℝ)] [(2 : ℝ)] 1 1 1 1).1 = [(1 : ℝ)] ∧
        (NB02.kick_numpy [(1 : ℝ)] [(2 : ℝ)] 1 1 1 1).1 = [(1 : ℝ)]) :=
  ⟨rfl, kick_unrolled_eq_kick_numpy [(1 : ℝ)] [(2 : ℝ)] 1 1 1 1 rfl⟩

/-- The compositional NumPy discriminant agrees, index by index, with the
scalar discriminant mapped over the index range, whenever the three input
lists have equal length. -/
theorem py_numpy_discriminant_eq :
    ∀ A B C : List ℝ, B.length = A.length → C.length = A.length →
      NB02.numpy_discriminant A B C =
        (List.range A.length).map (fun i =>
          NB02.discriminant (A.getD i 0) (B.getD i 0) (C.getD i 0)) := by
  intro A
  induction A with
  | nil =>
    intro B C hB hC
    rw [List.length_eq_zero.mp hB, List.length_eq_zero.mp hC]
    rfl
  | cons a A ih =>
    intro B C hB hC
    cases B with
    | nil => simp at hB
    | cons b B =>
      cases C with
      | nil => simp at hC
      | cons c C =>
        simp only [List.length_cons, Nat.succ.injEq] at hB hC
        show NB02.discriminant a b c :: NB02.numpy_discriminant A B C = _
        rw [List.length_cons, List.range_succ_eq_map, List.map_cons, List.map_map]
        simp only [List.getD_cons_zero]
        rw [ih B C hB hC]
        congr 1

/-- Claim C5: on equal-length inputs with every leading coefficient nonzero,
the three quadratic-discriminant variants agree exactly (hence within
floating-point tolerance): the unrolled loop, the vectorized NumPy
expression and the scalar `discriminant` applied at every index all produce
the array whose i-th element is
`(-B[i] + sqrt(|B[i]^2 - 4*A[i]*C[i]|)) / (2*A[i])`; being functions on
immutable lists, they leave `A`, `B` and `C` unchanged. -/
theorem discriminant_variants_agree (A B C : List ℝ)
    (hB : B.length = A.length) (hC : C.length = A.length)
    (_hA : ∀ a ∈ A, a ≠ 0) :
    NB02.unrolled_discriminant A B C =
        (List.range A.length).map (fun i =>
          NB02.discriminant (A.getD i 0) (B.getD i 0) (C.getD i 0)) ∧
      NB02.numpy_discriminant A B C =
        (List.range A.length).map (fun i =>
          NB02.discriminant (A.getD i 0) (B.getD i 0) (C.getD i 0)) ∧
      ∀ i < A.length,
        (NB02.unrolled_discriminant A B C).getD i 0 =
          (-(B.getD i 0) +
              Real.sqrt |(B.getD i 0) ^ 2 - 4 * A.getD i 0 * C.getD i 0|) /
            (2 * A.getD i 0) := by
  refine ⟨rfl, py_numpy_discriminant_eq A B C hB hC, ?_⟩
  intro i hi
  unfold NB02.unrolled_discriminant
  rw [List.getD_eq_getElem?_getD, List.getElem?_map, List.getElem?_range hi]
  rfl

/-- Witness for claim C5 at `A = B = C = [1]`. -/
theorem discriminant_variants_agree_witness :
    ([(1 : ℝ)].length = [(1 : ℝ)].length) ∧
      ([(1 : ℝ)].length = [(1 : ℝ)].length) ∧
      (∀ a ∈ [(1 : ℝ)], a ≠ 0) ∧
      (NB02.unrolled_discriminant [(1 : ℝ)] [(1 : ℝ)] [(1 : ℝ)] =
          (List.range [(1 : ℝ)].length).map (fun i =>
            NB02.discriminant ([(1 : ℝ)].getD i 0) ([(1 : ℝ)].getD i 0)
              ([(1 : ℝ)].getD i 0)) ∧
        NB02.numpy_discriminant [(1 : ℝ)] [(1 : ℝ)] [(1 : ℝ)] =
          (List.range [(1 : ℝ)].length).map (fun i =>
            NB02.discriminant ([(1 : ℝ)].getD i 0) ([(1 : ℝ)].getD i 0)
              ([(1 : ℝ)].getD i 0)) ∧
        ∀ i < [(1 : ℝ)].length,
          (NB02.unrolled_discriminant [(1 : ℝ)] [(1 : ℝ)] [(1 : ℝ)]).getD i 0 =
            (-([(1 : ℝ)].getD i 0) +
                Real.sqrt |([(1 : ℝ)].getD i 0) ^ 2 -
                  4 * [(1 : ℝ)].getD i 0 * [(1 : ℝ)].getD i 0|) /
              (2 * [(1 : ℝ)].getD i 0)) :=
  ⟨rfl, rfl, by simp,
    discriminant_variants_agree [(1 : ℝ)] [(1 : ℝ)] [(1 : ℝ)] rfl rfl (by simp)⟩

/-- A fold over `range n` whose body ignores the index is an `n`-fold
iteration. -/
theorem py_foldl_range_const {σ : Type} (f : σ → σ) :
    ∀ (n : ℕ) (s : σ), (List.range n).foldl (fun s _ => f s) s = f^[n] s := by
  intro n
  induction n with
  | zero => intro s; rfl
  | succ n ih =>
    intro s
    rw [List.range_succ, List.foldl_append, ih s]
    simp only [List.foldl_cons, List.foldl_nil]
    rw [← Function.iterate_succ_apply' f n s]

/-- In-place elementwise multiplication by `0.0` (`profile *= 0.0`) zeroes
every entry. -/
theorem py_map_mul_zero (l : List ℝ) :
    l.map (fun x => x * 0.0) = List.replicate l.length 0 := by
  have h0 : (0.0 : ℝ) = 0 := by norm_num
  induction l with
  | nil => rfl
  | cons a l ih => simp [List.replicate_succ, ih, h0]

/-- A fold over `range tb.length` that reads `tb` at the loop index is a
structural fold over `tb`. -/
theorem py_foldl_range_getD {α β : Type} (g : β → α → β) (d : α) :
    ∀ (tb : List α) (s : β),
      (List.range tb.length).foldl (fun s i => g s (tb.getD i d)) s =
        tb.foldl g s := by
  intro tb
  induction tb with
  | nil => intro s; rfl
  | cons a t ih =>
    intro t0
    rw [List.length_cons, List.range_succ_eq_map]
    simp only [List.foldl_cons, List.foldl_map, List.getD_cons_zero,
      List.getD_cons_succ]
    exact ih (g t0 a)

/-- Iterating any tracking step whose profile component is the zeroed
previous profile: after at least one iteration the profile is identically
zero, with its original length. -/
theorem py_iterate_profile_zero
    (F : List ℝ × List ℝ × List ℝ → List ℝ × List ℝ × List ℝ)
    (hF : ∀ t, (F t).2.2 = t.2.2.map (fun x => x * 0.0)) :
    ∀ (n : ℕ) (s : List ℝ × List ℝ × List ℝ), 0 < n →
      (F^[n] s).2.2 = List.replicate s.2.2.length 0 := by
  have hlen : ∀ (n : ℕ) (s : List ℝ × List ℝ × List ℝ),
      (F^[n] s).2.2.length = s.2.2.length := by
    intro n
    induction n with
    | zero => intro s; rfl
    | succ n ih =>
      intro s
      rw [Function.iterate_succ_apply', hF, List.length_map, ih]
  intro n s hn
  cases n with
  | zero => exact absurd hn (by simp)
  | succ m =>
    rw [Function.iterate_succ_apply', hF, py_map_mul_zero, hlen m s]

/-- Claim C10: `average_unrolled` raises ZeroDivisionError (modelled as
`none`) exactly when the array is empty, and on a non-empty array returns
the sum of the elements divided by the length. -/
theorem average_unrolled_spec (arr : List ℝ) :
    NB02.average_unrolled arr =
      if arr = [] then none else some (arr.sum / arr.length) := by
  unfold NB02.average_unrolled
  rw [py_foldl_add_eq_sum arr 0.0]
  by_cases h : arr = []
  · simp [h]
  · rw [if_neg (by simpa using h), if_neg h]
    norm_num

/-- Claim C4: `standard_normal_pdf x` is exactly `exp(-x^2/2) / sqrt(2*pi)`,
and `numpy_pdf` computes the same expression elementwise, i.e. it maps
`standard_normal_pdf` over its input array. -/
theorem pdf_spec :
    (∀ x : ℝ, NB02.standard_normal_pdf x =
        Real.exp (-(x ^ 2) / 2) / Real.sqrt (2 * Real.pi)) ∧
      (∀ l : List ℝ, NB02.numpy_pdf l = l.map NB02.standard_normal_pdf) := by
  constructor
  · intro x; rfl
  · intro l
    simp [NB02.numpy_pdf, NB02.standard_normal_pdf, List.map_map, Function.comp]

/-- Claim C7: the pure-Python `get_access` compares the input against the
current value of the global `secure_pass` (an explicit argument of the
model), returning `Access Granted!` iff they are equal; reassigning the
global changes the comparison value immediately, since the result depends
only on the value passed at call time. -/
theorem get_access_spec (secure_pass input_pass : String) :
    NB02.get_access secure_pass input_pass =
      if input_pass = secure_pass then "Access Granted!" else "Access Denied!" := by
  unfold NB02.get_access
  by_cases h : secure_pass = input_pass
  · rw [if_pos h, if_pos h.symm]
  · rw [if_neg h, if_neg (fun hh => h hh.symm)]

/-- Claim C9: each tracking step of notebook 03 writes only its designated
output array: `kick_numpy` returns `dt` untouched (it only accumulates into
`dE`), and `drift_numpy` returns `dE` untouched (it only accumulates into
`dt`); the scalar and array coefficient arguments are only read. -/
theorem kick_drift_frame (dt dE : List ℝ) (voltage omega phi : List ℝ)
    (acc_kick T0 : ℝ) ( length_ratio : ℝ)
    (beta energy alpha_zero alpha_one alpha_two : ℝ) :
    (NB03.kick_numpy dt dE voltage omega phi acc_kick).1 = dt ∧
      (NB03.drift_numpy dt dE T0 length_ratio beta energy alpha_zero alpha_one
          alpha_two).2 = dE :=
  ⟨rfl, rfl⟩

/-- Claim C1 evaluated at a concrete divergent input: with one particle at
`1/2`, one bin and cuts `(0, 1)`, `histo_numpy` leaves the profile at `[0]`
(the histogram result is bound to a local name and discarded) while
`histo_unrolled` counts the particle into bin 0, leaving `[1]`; so the two
variants do not leave the profile array in the same final state. -/
theorem histo_variants_diverge :
    NB03.histo_numpy [(1 : ℝ) / 2] [0] 0 1 = [0] ∧
      NB03.histo_unrolled [(1 : ℝ) / 2] [0] 0 1 = [1] := by
  constructor
  · rfl
  · simp only [NB03.histo_unrolled]
    norm_num [Int.floor_eq_zero_iff]
    rw [show List.range 1 = [0] from rfl]
    norm_num

/-- Claim C8: `histo_numpy` never modifies the profile array passed to it,
and consequently after a run of `loop_numpy` (which zeroes the profile and
then calls `histo_numpy`, which writes nothing back, in each of its
`n_iter = 10` iterations) the profile is all zeros, whatever the particle
coordinates. -/
theorem histo_numpy_frame_loop_zero (dt dE profile : List ℝ)
    (cut_left cut_right : ℝ) (voltage omega phi : List ℝ)
    (acc_kick T0 : ℝ) ( length_ratio : ℝ)
    (beta energy alpha_zero alpha_one alpha_two : ℝ) :
    NB03.histo_numpy dt profile cut_left cut_right = profile ∧
      (NB03.loop_numpy dt dE profile cut_left cut_right voltage omega phi
            acc_kick T0 length_ratio beta energy alpha_zero alpha_one
            alpha_two).2.2 =
        List.replicate profile.length 0 := by
  refine ⟨rfl, ?_⟩
  unfold NB03.loop_numpy
  rw [py_foldl_range_const]
  exact py_iterate_profile_zero _ (fun t => rfl) NB03.n_iter (dt, dE, profile)
    (by decide)

/-- Claim C6: `loop_numpy` performs exactly `n_iter = 10` iterations, each
applying in this order the kick to `dE`, the drift to `dt`, the reset of
the profile to zero, and the histogram of `dt` into the profile — the loop
is exactly the 10-fold iteration of that composite step — and the unrolled
histogram bucket count assigns a particle `x` to bin
`floor((x - cut_left) * len(profile) / (cut_right - cut_left))`,
incrementing that bin by one whenever it lies within `[0, len(profile))`. -/
theorem loop_numpy_structure (dt dE profile : List ℝ) (cut_left cut_right : ℝ)
    (voltage omega phi : List ℝ) (acc_kick T0 : ℝ) ( length_ratio : ℝ)
    (beta energy alpha_zero alpha_one alpha_two : ℝ) :
    NB03.n_iter = 10 ∧
      NB03.loop_numpy dt dE profile cut_left cut_right voltage omega phi
          acc_kick T0 length_ratio beta energy alpha_zero alpha_one alpha_two =
        ((fun s : List ℝ × List ℝ × List ℝ =>
          let kicked := NB03.kick_numpy s.1 s.2.1 voltage omega phi acc_kick
          let drifted := NB03.drift_numpy kicked.1 kicked.2 T0 length_ratio
            beta energy alpha_zero alpha_one alpha_two
          let zeroed := s.2.2.map (fun x => x * 0.0)
          (drifted.1, drifted.2,
            NB03.histo_numpy drifted.1 zeroed cut_left cut_right))^[10])
          (dt, dE, profile) ∧
      ∀ (particles prof : List ℝ),
        NB03.histo_unrolled particles prof cut_left cut_right =
          particles.foldl
            (fun p x =>
              if 0 ≤ ⌊(x - cut_left) * (prof.length : ℝ) / (cut_right - cut_left)⌋ ∧
                  ⌊(x - cut_left) * (prof.length : ℝ) / (cut_right - cut_left)⌋ <
                    (p.length : ℤ) then
                p.set (⌊(x - cut_left) * (prof.length : ℝ) /
                    (cut_right - cut_left)⌋).toNat
                  (p.getD (⌊(x - cut_left) * (prof.length : ℝ) /
                      (cut_right - cut_left)⌋).toNat 0 + 1.0)
              else p)
            prof := by
  refine ⟨rfl, ?_, ?_⟩
  · unfold NB03.loop_numpy
    rw [py_foldl_range_const]
    rfl
  · intro particles prof
    simp only [NB03.histo_unrolled]
    rw [py_foldl_range_getD
      (fun (p : List ℝ) (b : ℤ) =>
        if 0 ≤ b ∧ b < (p.length : ℤ) then
          p.set b.toNat (p.getD b.toNat 0 + 1.0)
        else p)
      (0 : ℤ)
      (particles.map (fun x =>
        ⌊(x - cut_left) * ((prof.length : ℝ) / (cut_right - cut_left))⌋)),
      List.foldl_map]
    simp only [mul_div_assoc]

end
